import Mathlib

/-!
# Shallow embedding of the egui rendering/layout core

This file embeds, in Lean 4, the parts of the repository needed to settle the
frozen claims:

* `src/crates/egui/src/painter.rs` — the `Painter` (clip rect, fade/opacity
  state) and its `add` / `extend` / `set` operations on a per-layer shape list;
* `src/crates/egui/src/containers/panel.rs` — `SidePanel` width negotiation,
  `clamp_to_range`, and `show_animated`;
* `src/crates/egui_extras/src/layout.rs` — `StripLayout` cursor arithmetic
  (`cell_rect`, `set_pos`, `add`, `end_line`).

Machine `f32` coordinates and factors are embedded as exact rationals `ℚ`;
the one place the code branches on float finiteness (`Painter::set_opacity` /
`multiply_opacity`) uses an explicit `F32` sum type with a `finite` payload.

Types from sibling crates of this repository that are not under `src/`
(`emath::Rect`/`Rangef`, `ecolor::Color32`, `epaint::Shape` and
`shape_transform::adjust_colors`, `egui::layers::PaintList`) are modelled from
the spec; each such definition carries a doc comment starting
`Modelled from the spec:`.
-/

namespace Egui

/-- Modelled from the spec: `emath::Pos2`, a 2D point with `x`/`y` coordinates
(the spec's cursor/rect coordinates). -/
structure Pos2 where
  x : ℚ
  y : ℚ
deriving DecidableEq, Repr

/-- Modelled from the spec: `emath::Vec2`, a 2D vector (used for item spacing). -/
structure Vec2 where
  x : ℚ
  y : ℚ
deriving DecidableEq, Repr

/-- Modelled from the spec: `emath::Rect`, given by its `min` (left-top) and
`max` (right-bottom) corners. "Clip rect: the rectangle outside which nothing
drawn is visible." -/
structure Rect where
  min : Pos2
  max : Pos2
deriving DecidableEq, Repr

namespace Rect

/-- Modelled from the spec: `emath::Rect::intersect` — component-wise max of the
`min` corners and min of the `max` corners ("subset (by rectangle
intersection)"). -/
def intersect (a b : Rect) : Rect :=
  { min := ⟨Max.max a.min.x b.min.x, Max.max a.min.y b.min.y⟩
    max := ⟨Min.min a.max.x b.max.x, Min.min a.max.y b.max.y⟩ }

/-- Modelled from the spec: `emath::Rect::union` (the `|` operator in
`max_rect | used_rect`) — component-wise min of mins and max of maxes. -/
def union (a b : Rect) : Rect :=
  { min := ⟨Min.min a.min.x b.min.x, Min.min a.min.y b.min.y⟩
    max := ⟨Max.max a.max.x b.max.x, Max.max a.max.y b.max.y⟩ }

/-- Modelled from the spec: `emath::Rect::contains_rect` — coordinate-wise
containment (`a` contains `b`). -/
def containsRect (a b : Rect) : Prop :=
  a.min.x ≤ b.min.x ∧ b.max.x ≤ a.max.x ∧ a.min.y ≤ b.min.y ∧ b.max.y ≤ a.max.y

instance (a b : Rect) : Decidable (a.containsRect b) := by
  unfold containsRect; infer_instance

/-- Embeds `Rect::width`. -/
def width (r : Rect) : ℚ := r.max.x - r.min.x

/-- Embeds `Rect::left`. -/
def left (r : Rect) : ℚ := r.min.x

/-- Embeds `Rect::right`. -/
def right (r : Rect) : ℚ := r.max.x

/-- Embeds `Rect::top`. -/
def top (r : Rect) : ℚ := r.min.y

/-- Embeds `Rect::bottom`. -/
def bottom (r : Rect) : ℚ := r.max.y

end Rect

/-- Modelled from the spec: `emath::Rangef`, an inclusive `min..=max` range of
reals (used for panel width ranges). -/
structure Rangef where
  min : ℚ
  max : ℚ
deriving DecidableEq, Repr

namespace Rangef

/-- Modelled from the spec: `emath::Rangef::as_positive` — order-normalize the
endpoints so `min ≤ max`. -/
def asPositive (r : Rangef) : Rangef :=
  ⟨Min.min r.min r.max, Max.max r.min r.max⟩

/-- Modelled from the spec: `emath::Rangef::point` — the degenerate range
`[w, w]` (used by `SidePanel::exact_width`). -/
def point (w : ℚ) : Rangef := ⟨w, w⟩

end Rangef

/-- Rust `f32::clamp(lo, hi)` on finite values: below `lo` gives `lo`, above
`hi` gives `hi`, otherwise the input (Rust panics when `lo > hi`; the callers
embedded here normalize the range first). -/
def fclamp (x lo hi : ℚ) : ℚ :=
  if x < lo then lo else if hi < x then hi else x

/-- Rust `f32::min` / `Ord::at_most` on finite values. -/
def atMost (x y : ℚ) : ℚ := min x y

/-- Rust `f32::max` / `Ord::at_least` on finite values. -/
def atLeast (x y : ℚ) : ℚ := max x y

/-- An `f32` as the code observes it: either a finite value (embedded exactly
as a rational) or one of the non-finite values, for which `is_finite` is
`false`. -/
inductive F32 where
  | finite (q : ℚ)
  | nan
  | posInf
  | negInf
deriving DecidableEq, Repr

/-- Rust `f32::is_finite`. -/
def F32.isFinite : F32 → Bool
  | .finite _ => true
  | _ => false

/-- Modelled from the spec: `ecolor::Color32`, a premultiplied sRGBA color with
four 8-bit channels. -/
structure Color32 where
  r : ℕ
  g : ℕ
  b : ℕ
  a : ℕ
deriving DecidableEq, Repr

namespace Color32

/-- Modelled from the spec: `Color32::TRANSPARENT` — the fully-transparent
(all-zero) color. -/
def TRANSPARENT : Color32 := ⟨0, 0, 0, 0⟩

/-- Modelled from the spec: `Color32::PLACEHOLDER` — the sentinel color that
"signals 'inherit caller's color' and must survive untouched". It is a
distinguished concrete value different from every ordinary color the pipeline
produces, in particular different from `TRANSPARENT`. -/
def PLACEHOLDER : Color32 := ⟨64, 254, 0, 180⟩

end Color32

/-- Modelled from the spec: the interface this core consumes from the `ecolor`
crate (not under `src/`): `tint_color_towards` blends a color toward a target,
and `gamma_multiply` scales a color by a factor in `[0,1]`. The claims settled
here do not depend on the numeric formulas, so both are carried as explicit
function parameters of the pipeline. -/
structure EcolorOps where
  tintColorTowards : Color32 → Color32 → Color32
  gammaMultiply : Color32 → ℚ → Color32

/-- A trivial instantiation of `EcolorOps` used to evaluate the pipeline on
concrete inputs (tinting replaces with the target; `gamma_multiply` scales
every channel by the factor, with the rational product truncated to `ℕ`). -/
def EcolorOps.sample : EcolorOps where
  tintColorTowards := fun _ target => target
  gammaMultiply := fun c q =>
    ⟨(q * c.r).floor.toNat, (q * c.g).floor.toNat, (q * c.b).floor.toNat, (q * c.a).floor.toNat⟩

/-- Embeds `epaint::Shape`, restricted to the variants whose color structure the
claims exercise: the no-op shape, a line segment (one stroke color), a circle
(fill + stroke colors) and a rectangle (fill + stroke colors). -/
inductive Shape where
  | noop
  | lineSegment (p1 p2 : Pos2) (strokeColor : Color32) (strokeWidth : ℚ)
  | circle (center : Pos2) (radius : ℚ) (fill : Color32) (strokeColor : Color32)
      (strokeWidth : ℚ)
  | rect (r : Rect) (fill : Color32) (strokeColor : Color32) (strokeWidth : ℚ)
deriving DecidableEq, Repr

namespace Shape

/-- Modelled from the spec: `epaint::shape_transform::adjust_colors` (the
`epaint` crate is not under `src/`) — apply the given closure to every color
slot of the shape; the no-op shape has none. -/
def adjustColors (f : Color32 → Color32) : Shape → Shape
  | .noop => .noop
  | .lineSegment p1 p2 sc sw => .lineSegment p1 p2 (f sc) sw
  | .circle c rad fill sc sw => .circle c rad (f fill) (f sc) sw
  | .rect r fill sc sw => .rect r (f fill) (f sc) sw

/-- The colors carried by a shape, in slot order (used only to state claims
about "every color" of a shape). -/
def colors : Shape → List Color32
  | .noop => []
  | .lineSegment _ _ sc _ => [sc]
  | .circle _ _ fill sc _ => [fill, sc]
  | .rect _ fill sc _ => [fill, sc]

end Shape

/-- Embeds `fn tint_shape_towards(shape, target)` from `painter.rs`: adjust every
color, leaving the placeholder sentinel untouched and tinting the rest. -/
def tintShapeTowards (ops : EcolorOps) (target : Color32) (shape : Shape) : Shape :=
  shape.adjustColors fun color =>
    if color ≠ Color32.PLACEHOLDER then ops.tintColorTowards color target else color

/-- Embeds `fn multiply_opacity(shape, opacity)` from `painter.rs`: adjust every
color, leaving the placeholder sentinel untouched and gamma-multiplying the
rest. -/
def multiplyOpacityShape (ops : EcolorOps) (opacity : ℚ) (shape : Shape) : Shape :=
  shape.adjustColors fun color =>
    if color ≠ Color32.PLACEHOLDER then ops.gammaMultiply color opacity else color

/-- Embeds `epaint::ClippedShape`: a shape paired with its clip rectangle. -/
structure ClippedShape where
  clipRect : Rect
  shape : Shape
deriving DecidableEq, Repr

/-- Modelled from the spec: `egui::layers::PaintList` (`layers.rs` is not under
`src/`) — "an appendable, indexable sequence of clipped shapes". -/
def PaintList := List ClippedShape

instance : DecidableEq PaintList :=
  inferInstanceAs (DecidableEq (List ClippedShape))

namespace PaintList

/-- Modelled from the spec: `PaintList::add` appends one clipped shape and
returns its index, a "stable handle". -/
def add (l : PaintList) (clip : Rect) (shape : Shape) : PaintList × ℕ :=
  (List.append l [⟨clip, shape⟩], List.length l)

/-- Modelled from the spec: `PaintList::extend` appends many clipped shapes. -/
def extend (l : PaintList) (clip : Rect) (shapes : List Shape) : PaintList :=
  List.append l (shapes.map fun s => ⟨clip, s⟩)

/-- Modelled from the spec: `PaintList::set` replaces the shape at a
previously returned index in place. -/
def set (l : PaintList) (idx : ℕ) (clip : Rect) (shape : Shape) : PaintList :=
  List.set l idx ⟨clip, shape⟩

end PaintList

/-- The `Painter` of `painter.rs`: layer id, clip rect, optional fade-to
color, and opacity factor. (`ctx` and `pixels_per_point` are dropped: no claim
observes them. The opacity factor is stored as an exact rational — both code
paths that write it, `set_opacity` and `multiply_opacity`, guard on
`is_finite` first.) -/
structure Painter where
  layerId : ℕ
  clipRect : Rect
  fadeToColor : Option Color32
  opacityFactor : ℚ
deriving DecidableEq, Repr

namespace Painter

/-- Embeds `Painter::new`: fade unset, opacity 1. -/
def new (layerId : ℕ) (clipRect : Rect) : Painter :=
  ⟨layerId, clipRect, none, 1⟩

/-- Embeds `Painter::with_clip_rect`: clone, with the clip rect replaced by the
intersection of the given rect and the parent's clip rect. -/
def withClipRect (p : Painter) (rect : Rect) : Painter :=
  { p with clipRect := rect.intersect p.clipRect }

/-- Embeds `Painter::shrink_clip_rect`: intersect the clip rect with the given one
(in the source, `self.clip_rect = self.clip_rect.intersect(new_clip_rect)`). -/
def shrinkClipRect (p : Painter) (newClipRect : Rect) : Painter :=
  { p with clipRect := p.clipRect.intersect newClipRect }

/-- Embeds `Painter::set_opacity`: when the argument is finite, replace the factor
with the argument clamped to `[0,1]`; otherwise do nothing. -/
def setOpacity (p : Painter) (opacity : F32) : Painter :=
  match opacity with
  | .finite q => { p with opacityFactor := fclamp q 0 1 }
  | _ => p

/-- Embeds `Painter::multiply_opacity`: when the argument is finite, multiply the
factor by the argument clamped to `[0,1]`; otherwise do nothing. -/
def multiplyOpacity (p : Painter) (opacity : F32) : Painter :=
  match opacity with
  | .finite q => { p with opacityFactor := p.opacityFactor * fclamp q 0 1 }
  | _ => p

/-- Embeds `Painter::opacity`. -/
def opacity (p : Painter) : ℚ := p.opacityFactor

/-- Embeds `Painter::transform_shape`: tint toward `fade_to_color` when set, then
gamma-multiply when `opacity_factor < 1`. -/
def transformShape (ops : EcolorOps) (p : Painter) (shape : Shape) : Shape :=
  let shape := match p.fadeToColor with
    | some fadeToColor => tintShapeTowards ops fadeToColor shape
    | none => shape
  if p.opacityFactor < 1 then multiplyOpacityShape ops p.opacityFactor shape else shape

/-- Embeds `Painter::add`: when the painter is invisible (`fade_to_color` equals
`TRANSPARENT` or `opacity_factor == 0.0`) append a `Noop` shape (to keep the
returned index stable); otherwise append the transformed shape. -/
def add (ops : EcolorOps) (p : Painter) (l : PaintList) (shape : Shape) : PaintList × ℕ :=
  if p.fadeToColor = some Color32.TRANSPARENT ∨ p.opacityFactor = 0 then
    l.add p.clipRect .noop
  else
    l.add p.clipRect (p.transformShape ops shape)

/-- Embeds `Painter::extend`: when the painter is invisible, return with the list
untouched; when a transform is active, map it over the shapes; otherwise
extend directly. -/
def extend (ops : EcolorOps) (p : Painter) (l : PaintList) (shapes : List Shape) : PaintList :=
  if p.fadeToColor = some Color32.TRANSPARENT ∨ p.opacityFactor = 0 then
    l
  else if p.fadeToColor.isSome ∨ p.opacityFactor < 1 then
    l.extend p.clipRect (shapes.map (p.transformShape ops))
  else
    l.extend p.clipRect shapes

/-- Embeds `Painter::set`: return with the list untouched when `fade_to_color` equals
`TRANSPARENT`; otherwise write the transformed shape at the index. -/
def set (ops : EcolorOps) (p : Painter) (l : PaintList) (idx : ℕ) (shape : Shape) : PaintList :=
  if p.fadeToColor = some Color32.TRANSPARENT then
    l
  else
    l.set idx p.clipRect (p.transformShape ops shape)

end Painter

/-- One step of deriving a sub-painter: either `with_clip_rect` (clone with
the intersection) or `shrink_clip_rect` (in-place intersection). -/
inductive ClipStep where
  | withRect (r : Rect)
  | shrinkRect (r : Rect)
deriving DecidableEq, Repr

/-- Apply one clip-derivation step to a painter. -/
def applyClipStep (p : Painter) : ClipStep → Painter
  | .withRect r => p.withClipRect r
  | .shrinkRect r => p.shrinkClipRect r

/-- A chain of `with_clip_rect` / `shrink_clip_rect` steps starting from a
painter. -/
def clipChain (p : Painter) (steps : List ClipStep) : Painter :=
  steps.foldl applyClipStep p

/-! ## Panels (`containers/panel.rs`) -/

/-- Embeds `egui::Id`: an identifier built from a base salt, derived with
`Id::with`. The source hashes the salts; the claims only need that deriving
with a salt yields an id distinct from the parent, which the tree structure
gives directly. -/
inductive Id where
  | base (salt : String)
  | derive (parent : Id) (salt : String)
deriving DecidableEq, Repr

/-- Embeds `Id::with`. -/
def Id.withSalt (i : Id) (salt : String) : Id := .derive i salt

/-- The salt string the animation variants derive their fake-panel id with
(the source's `id.with("animating_panel")`). -/
def animatingPanelSalt : String :=
  "animating_panel"

/-- A fixed base salt used to build concrete panel ids in witnesses. -/
def testPanelSalt : String :=
  "test_panel"

/-- Embeds `PanelState`: the persisted rect of a panel from the previous pass. -/
structure PanelState where
  rect : Rect
deriving DecidableEq, Repr

/-- Embeds `fn clamp_to_range(x, range)` from `panel.rs`: order-normalize the range
with `as_positive`, then clamp. -/
def clampToRange (x : ℚ) (range : Rangef) : ℚ :=
  let range := range.asPositive
  fclamp x range.min range.max

/-- Embeds `Side`: which screen edge a `SidePanel` is fixed to. -/
inductive Side where
  | left
  | right
deriving DecidableEq, Repr

namespace Side

/-- Embeds `Side::opposite`. -/
def opposite : Side → Side
  | .left => .right
  | .right => .left

/-- Embeds `Side::set_rect_width`: move the free edge so the rect gets the given
width, keeping the fixed edge in place. -/
def setRectWidth (side : Side) (rect : Rect) (width : ℚ) : Rect :=
  match side with
  | .left => { rect with max := { rect.max with x := rect.min.x + width } }
  | .right => { rect with min := { rect.min with x := rect.max.x - width } }

/-- Embeds `Side::side_x`: the x coordinate of the fixed edge. -/
def sideX (side : Side) (rect : Rect) : ℚ :=
  match side with
  | .left => rect.left
  | .right => rect.right

/-- Embeds `Side::sign`. -/
def sign (side : Side) : ℚ :=
  match side with
  | .left => -1
  | .right => 1

end Side

/-- Modelled from the spec: `emath::GuiRounding::round_ui` ("round the panel
rect to device-pixel-aligned bounds") — round to the nearest multiple of the
GUI rounding increment 1/32. -/
def roundUi (q : ℚ) : ℚ := (round (q * 32) : ℤ) / 32

/-- Embeds `round_ui` applied to both coordinates of a point. -/
def Pos2.roundUi (p : Pos2) : Pos2 := ⟨Egui.roundUi p.x, Egui.roundUi p.y⟩

/-- Embeds `round_ui` applied to both corners of a rect. -/
def Rect.roundUi (r : Rect) : Rect := ⟨r.min.roundUi, r.max.roundUi⟩

/-- The `SidePanel` builder struct: side, id, resizability, separator flag,
default width and allowed width range. (The `frame` override is dropped: no
claim observes it. `SidePanel::new`'s default `width_range` has an infinite
max, which no claim uses; the claims construct the range explicitly.) -/
structure SidePanel where
  side : Side
  id : Id
  resizable : Bool
  showSeparatorLine : Bool
  defaultWidth : ℚ
  widthRange : Rangef
deriving DecidableEq, Repr

namespace SidePanel

/-- Embeds `SidePanel::resizable`. -/
def setResizable (p : SidePanel) (resizable : Bool) : SidePanel :=
  { p with resizable := resizable }

/-- Embeds `SidePanel::exact_width`: enforce this exact width — default width set to
it and the range collapsed to a point. -/
def exactWidth (p : SidePanel) (width : ℚ) : SidePanel :=
  { p with defaultWidth := width, widthRange := Rangef.point width }

/-- The resize-interaction readings `show_inside_dyn` takes from the previous
pass for the synthetic resize-handle id (`ctx.read_response(resize_id)`),
supplied as an input: hover state, drag state, and the drag pointer x
position. -/
structure ResizeInput where
  hovered : Bool
  dragged : Bool
  pointerX : Option ℚ
deriving DecidableEq, Repr

/-- The width negotiation of `SidePanel::show_inside_dyn` (panel.rs lines
245–276): candidate width = stored width if panel state exists, else the
configured default; clamped to the width range and capped at the available
width; the panel rect is the available rect with that width set on the
panel's side; when resizable and the previous pass reported a drag with a
pointer position, the width is recomputed from the pointer's offset from the
fixed edge and reclamped; finally the rect is rounded to GUI-aligned bounds.
Returns the negotiated width and the rounded panel rect. -/
def negotiate (p : SidePanel) (state : Option PanelState) (availableRect : Rect)
    (resize : Option ResizeInput) : ℚ × Rect :=
  let w0 : ℚ := match state with
    | some s => s.rect.width
    | none => p.defaultWidth
  let width := atMost (clampToRange w0 p.widthRange) availableRect.width
  let panelRect := p.side.setRectWidth availableRect width
  let step : ℚ × Rect :=
    if p.resizable then
      match resize with
      | some r =>
        if r.dragged then
          match r.pointerX with
          | some px =>
            let w := |px - p.side.sideX panelRect|
            let w := atMost (clampToRange w p.widthRange) availableRect.width
            (w, p.side.setRectWidth panelRect w)
          | none => (width, panelRect)
        else (width, panelRect)
      | none => (width, panelRect)
    else (width, panelRect)
  (step.1, step.2.roundUi)

/-- The observable of `SidePanel::show` / `show_inside` used by the claims:
the negotiated width and panel rect, with the persisted state looked up in the
store under the panel's id. -/
def showPanel (p : SidePanel) (store : Id → Option PanelState) (availableRect : Rect)
    (resize : Option ResizeInput) : ℚ × Rect :=
  p.negotiate (store p.id) availableRect resize

/-- Which panel (if any) a `show_animated` call actually shows. -/
inductive AnimShown where
  | nothing
  | fake (cfg : SidePanel)
  | real (cfg : SidePanel)
deriving DecidableEq, Repr

/-- Embeds `SidePanel::show_animated` (panel.rs lines 409–438), with the animation
progress (`animate_expansion`, an external primitive returning `0..=1`)
supplied as the input `howExpanded`: at progress 0 nothing is shown and the
result is `none`; at progress in `(0,1)` a fake panel — non-resizable, exact
width `progress * expanded_width`, under the derived id
`id.with("animating_panel")` — is shown and the result is `none`; otherwise
the real panel is shown and its result returned. -/
def showAnimated (p : SidePanel) (store : Id → Option PanelState) (availableRect : Rect)
    (resize : Option ResizeInput) (howExpanded : ℚ) : Option (ℚ × Rect) × AnimShown :=
  if 0 = howExpanded then
    (none, .nothing)
  else if howExpanded < 1 then
    let expandedWidth : ℚ := match store p.id with
      | some state => state.rect.width
      | none => p.defaultWidth
    let fakeWidth := howExpanded * expandedWidth
    let fakeCfg :=
      (({ p with id := p.id.withSalt animatingPanelSalt }).setResizable false).exactWidth fakeWidth
    (none, .fake fakeCfg)
  else
    (some (p.showPanel store availableRect resize), .real p)

end SidePanel

/-! ## Strip layout (`egui_extras/src/layout.rs`) -/

/-- Embeds `CellSize`: an absolute extent in points, or the remaining space to the
strip's outer rect. -/
inductive CellSize where
  | absolute (v : ℚ)
  | remainder
deriving DecidableEq, Repr

/-- Embeds `CellDirection`: whether cells go left-to-right or top-to-bottom. -/
inductive CellDirection where
  | horizontal
  | vertical
deriving DecidableEq, Repr

/-- Embeds `StripLayoutFlags`. -/
structure StripLayoutFlags where
  clip : Bool := false
  striped : Bool := false
  hovered : Bool := false
  selected : Bool := false
  overline : Bool := false
  sizingPass : Bool := false
deriving DecidableEq, Repr

/-- Modelled from the spec: the ambient `Ui` facts `StripLayout` reads (the
`Ui` type lives in the `egui` crate outside `src/`): the style's item spacing
and whether this is a two-pass sizing measurement. -/
structure StripUi where
  itemSpacing : Vec2
  isSizingPass : Bool
deriving DecidableEq, Repr

/-- The cursor state of `StripLayout`: direction, outer rect, next-cell
origin, and the high-water mark of used extent. -/
structure StripState where
  direction : CellDirection
  rect : Rect
  cursor : Pos2
  max : Pos2
deriving DecidableEq, Repr

namespace StripState

/-- Embeds `StripLayout::new`: cursor and high-water mark both start at the outer
rect's left-top corner. -/
def new (direction : CellDirection) (rect : Rect) : StripState :=
  ⟨direction, rect, rect.min, rect.min⟩

/-- Embeds `StripLayout::cell_rect`: from the cursor, extend by the requested width
and height (absolute, or to the outer rect's right/bottom edge). -/
def cellRect (s : StripState) (width height : CellSize) : Rect :=
  { min := s.cursor
    max :=
      { x := match width with
          | .absolute w => s.cursor.x + w
          | .remainder => s.rect.right
        y := match height with
          | .absolute h => s.cursor.y + h
          | .remainder => s.rect.bottom } }

/-- Embeds `StripLayout::set_pos`: raise the high-water mark to include the placed
rect's right/bottom edges, then advance the cursor along the primary
direction only, to the rect's trailing edge plus item spacing. -/
def setPos (ui : StripUi) (s : StripState) (rect : Rect) : StripState :=
  let m : Pos2 := ⟨Max.max s.max.x rect.right, Max.max s.max.y rect.bottom⟩
  match s.direction with
  | .horizontal =>
    { s with max := m, cursor := { s.cursor with x := rect.right + ui.itemSpacing.x } }
  | .vertical =>
    { s with max := m, cursor := { s.cursor with y := rect.bottom + ui.itemSpacing.y } }

/-- Embeds `StripLayout::empty`: advance past a cell-sized rect with no content. -/
def empty (ui : StripUi) (s : StripState) (width height : CellSize) : StripState :=
  s.setPos ui (s.cellRect width height)

/-- Embeds `StripLayout::add` (layout.rs lines 115–175), restricted to its cursor
arithmetic: the cell's max rect comes from the cursor and the size specs; the
content's used rect (`child_ui.min_rect()`, content-dependent) is the input
`usedRect`; the allocation rect — what advances the cursor via `set_pos` and
is reported to the parent via `advance_cursor_after_rect` — is the used rect
during a sizing pass, the max rect when `flags.clip`, and their union
otherwise. Returns the new state, the used rect, and the allocation rect. -/
def addCell (ui : StripUi) (flags : StripLayoutFlags) (s : StripState)
    (width height : CellSize) (usedRect : Rect) : StripState × Rect × Rect :=
  let maxRect := s.cellRect width height
  let allocationRect :=
    if ui.isSizingPass then usedRect
    else if flags.clip then maxRect
    else maxRect.union usedRect
  (s.setPos ui allocationRect, usedRect, allocationRect)

/-- Embeds `StripLayout::end_line`: reset the primary-axis cursor to the strip
rect's origin and set the cross-axis cursor to the high-water mark plus item
spacing. -/
def endLine (ui : StripUi) (s : StripState) : StripState :=
  match s.direction with
  | .horizontal =>
    { s with cursor := ⟨s.rect.left, s.max.y + ui.itemSpacing.y⟩ }
  | .vertical =>
    { s with cursor := ⟨s.max.x + ui.itemSpacing.x, s.rect.top⟩ }

end StripState

/-- The strip-line scenario of the spec's non-overlap property: on a
horizontal strip over `rect`, add three cells of heights 10, 30 and 15 (and
widths `w1`, `w2`, `w3`), each cell's content exactly filling its max rect,
then call `end_line`; the resulting cursor starts the next line. -/
def stripThreeCells (ui : StripUi) (rect : Rect) (w1 w2 w3 : ℚ) : StripState :=
  let s0 := StripState.new .horizontal rect
  let s1 := (s0.addCell ui {} (.absolute w1) (.absolute 10)
      (s0.cellRect (.absolute w1) (.absolute 10))).1
  let s2 := (s1.addCell ui {} (.absolute w2) (.absolute 30)
      (s1.cellRect (.absolute w2) (.absolute 30))).1
  let s3 := (s2.addCell ui {} (.absolute w3) (.absolute 15)
      (s2.cellRect (.absolute w3) (.absolute 15))).1
  s3.endLine ui

/-! ## Helper lemmas -/

theorem Rect.containsRect_refl (r : Rect) : r.containsRect r :=
  ⟨le_refl _, le_refl _, le_refl _, le_refl _⟩

theorem Rect.containsRect_trans {a b c : Rect} (h1 : a.containsRect b)
    (h2 : b.containsRect c) : a.containsRect c :=
  ⟨le_trans h1.1 h2.1, le_trans h2.2.1 h1.2.1, le_trans h1.2.2.1 h2.2.2.1,
    le_trans h2.2.2.2 h1.2.2.2⟩

theorem Rect.containsRect_intersect_left (a b : Rect) : a.containsRect (a.intersect b) :=
  ⟨le_max_left _ _, min_le_left _ _, le_max_left _ _, min_le_left _ _⟩

theorem Rect.containsRect_intersect_right (a b : Rect) : b.containsRect (a.intersect b) :=
  ⟨le_max_right _ _, min_le_right _ _, le_max_right _ _, min_le_right _ _⟩

theorem Painter.applyClipStep_contains (p : Painter) (st : ClipStep) :
    p.clipRect.containsRect (applyClipStep p st).clipRect := by
  cases st with
  | withRect r => exact Rect.containsRect_intersect_right r p.clipRect
  | shrinkRect r => exact Rect.containsRect_intersect_left p.clipRect r

theorem Painter.clipChain_contains (steps : List ClipStep) (p : Painter) :
    p.clipRect.containsRect (clipChain p steps).clipRect := by
  induction steps generalizing p with
  | nil => exact Rect.containsRect_refl _
  | cons st rest ih =>
    exact Rect.containsRect_trans (Painter.applyClipStep_contains p st)
      (ih (applyClipStep p st))

theorem Rangef.asPositive_min_le_max (r : Rangef) : r.asPositive.min ≤ r.asPositive.max :=
  le_trans (min_le_left _ _) (le_max_left _ _)

theorem le_clampToRange (x : ℚ) (r : Rangef) : r.asPositive.min ≤ clampToRange x r := by
  have h := r.asPositive_min_le_max
  simp only [clampToRange, fclamp]
  split_ifs <;> [exact le_refl _; exact h; linarith]

theorem clampToRange_le (x : ℚ) (r : Rangef) : clampToRange x r ≤ r.asPositive.max := by
  have h := r.asPositive_min_le_max
  simp only [clampToRange, fclamp]
  split_ifs <;> [exact h; exact le_refl _; linarith]

theorem Side.setRectWidth_setRectWidth (side : Side) (rect : Rect) (w1 w2 : ℚ) :
    side.setRectWidth (side.setRectWidth rect w1) w2 = side.setRectWidth rect w2 := by
  cases side <;> rfl

theorem Shape.colors_adjustColors (f : Color32 → Color32) (s : Shape) :
    (s.adjustColors f).colors = s.colors.map f := by
  cases s <;> rfl

theorem Painter.transformShape_colors (ops : EcolorOps) (p : Painter) (s : Shape) :
    ∃ g : Color32 → Color32, g Color32.PLACEHOLDER = Color32.PLACEHOLDER
      ∧ (p.transformShape ops s).colors = s.colors.map g := by
  have hfix : ∀ f : Color32 → Color32,
      (fun c => if c ≠ Color32.PLACEHOLDER then f c else c) Color32.PLACEHOLDER
        = Color32.PLACEHOLDER := by
    intro f; simp
  unfold Painter.transformShape tintShapeTowards multiplyOpacityShape
  cases hf : p.fadeToColor with
  | none =>
    by_cases hop : p.opacityFactor < 1
    · refine ⟨fun c => if c ≠ Color32.PLACEHOLDER
          then ops.gammaMultiply c p.opacityFactor else c,
        hfix (fun c => ops.gammaMultiply c p.opacityFactor), ?_⟩
      simp [hop, Shape.colors_adjustColors]
    · exact ⟨id, rfl, by simp [hop]⟩
  | some fade =>
    by_cases hop : p.opacityFactor < 1
    · refine ⟨fun c =>
        (fun c2 => if c2 ≠ Color32.PLACEHOLDER
          then ops.gammaMultiply c2 p.opacityFactor else c2)
        ((fun c1 => if c1 ≠ Color32.PLACEHOLDER
          then ops.tintColorTowards c1 fade else c1) c), ?_, ?_⟩
      · simp
      · simp [hop, Shape.colors_adjustColors, List.map_map, Function.comp]
    · refine ⟨fun c => if c ≠ Color32.PLACEHOLDER
          then ops.tintColorTowards c fade else c,
        hfix (fun c => ops.tintColorTowards c fade), ?_⟩
      simp [hop, Shape.colors_adjustColors]

theorem List.forall₂_map_placeholder (g : Color32 → Color32)
    (hg : g Color32.PLACEHOLDER = Color32.PLACEHOLDER) (l : List Color32) :
    List.Forall₂
      (fun c1 c2 => (c1 = Color32.PLACEHOLDER → c2 = Color32.PLACEHOLDER)
        ∧ (c2 ≠ c1 → c1 ≠ Color32.PLACEHOLDER))
      l (l.map g) := by
  induction l with
  | nil => exact .nil
  | cons c t ih =>
    refine .cons ⟨fun h => by rw [h, hg], fun hne h => ?_⟩ ih
    exact hne (by rw [h, hg])

theorem Rect.union_self (r : Rect) : r.union r = r := by
  rcases r with ⟨⟨a, b⟩, ⟨c, d⟩⟩
  simp [Rect.union]

theorem StripState.addCell_full_horizontal (ui : StripUi) (hsz : ui.isSizingPass = false)
    (t : StripState) (ht : t.direction = .horizontal) (w hgt : ℚ) :
    (t.addCell ui {} (.absolute w) (.absolute hgt)
        (t.cellRect (.absolute w) (.absolute hgt))).1.direction = .horizontal
    ∧ (t.addCell ui {} (.absolute w) (.absolute hgt)
        (t.cellRect (.absolute w) (.absolute hgt))).1.rect = t.rect
    ∧ (t.addCell ui {} (.absolute w) (.absolute hgt)
        (t.cellRect (.absolute w) (.absolute hgt))).1.cursor.y = t.cursor.y
    ∧ (t.addCell ui {} (.absolute w) (.absolute hgt)
        (t.cellRect (.absolute w) (.absolute hgt))).1.max.y
      = Max.max t.max.y (t.cursor.y + hgt) := by
  rcases t with ⟨dir, rect, cur, mx⟩
  cases ht
  simp [StripState.addCell, StripState.setPos, StripState.cellRect, hsz, Rect.union_self,
    Rect.bottom]

theorem Id.derive_ne (i : Id) : ∀ s : String, Id.derive i s ≠ i := by
  induction i with
  | base s0 => intro s h; exact Id.noConfusion h
  | derive p s0 ih => intro s h; injection h with h1 _; exact ih s0 h1

/-! ## Claim theorems -/

/-- C2: every `with_clip_rect` step's clip rect equals the intersection of the
given rectangle with the parent's clip rect (and `shrink_clip_rect` likewise
intersects in place); each step's result is contained in the parent's clip
rect; and along any chain of such steps, the resulting clip rect is contained
in the clip rect of every ancestor painter in the chain. -/
theorem painter_clip_monotone :
    (∀ (p : Painter) (r : Rect), (p.withClipRect r).clipRect = r.intersect p.clipRect)
    ∧ (∀ (p : Painter) (r : Rect), (p.shrinkClipRect r).clipRect = p.clipRect.intersect r)
    ∧ (∀ (p : Painter) (st : ClipStep), p.clipRect.containsRect (applyClipStep p st).clipRect)
    ∧ (∀ (p : Painter) (pre post : List ClipStep),
        (clipChain p pre).clipRect.containsRect (clipChain p (pre ++ post)).clipRect) := by
  refine ⟨fun p r => rfl, fun p r => rfl, Painter.applyClipStep_contains, fun p pre post => ?_⟩
  show (clipChain p pre).clipRect.containsRect (List.foldl applyClipStep p (pre ++ post)).clipRect
  rw [List.foldl_append]
  exact Painter.clipChain_contains post (clipChain p pre)

/-- C3: `set_opacity` with a finite argument sets the opacity to the argument
clamped to `[0,1]` and leaves it unchanged on non-finite input;
`multiply_opacity` with a finite argument multiplies the previous opacity by
the clamped argument (so from the initial value 1, multiplying by 0.5 twice
yields 0.25) and leaves it unchanged on non-finite input. -/
theorem painter_opacity_spec :
    (∀ (p : Painter) (q : ℚ), (p.setOpacity (.finite q)).opacity = fclamp q 0 1)
    ∧ (∀ (p : Painter) (x : F32), x.isFinite = false → (p.setOpacity x).opacity = p.opacity)
    ∧ (∀ (p : Painter) (q : ℚ),
        (p.multiplyOpacity (.finite q)).opacity = p.opacity * fclamp q 0 1)
    ∧ (∀ (p : Painter) (x : F32), x.isFinite = false → (p.multiplyOpacity x).opacity = p.opacity)
    ∧ (∀ (layer : ℕ) (r : Rect),
        (((Painter.new layer r).multiplyOpacity (.finite (1/2))).multiplyOpacity
            (.finite (1/2))).opacity = 1/4) := by
  refine ⟨fun p q => rfl, ?_, fun p q => rfl, ?_, fun layer r => by norm_num [Painter.new,
    Painter.multiplyOpacity, Painter.opacity, fclamp]⟩
  · intro p x hx
    cases x with
    | finite q => simp [F32.isFinite] at hx
    | nan => rfl
    | posInf => rfl
    | negInf => rfl
  · intro p x hx
    cases x with
    | finite q => simp [F32.isFinite] at hx
    | nan => rfl
    | posInf => rfl
    | negInf => rfl

/-- Witness for C3: concrete instances of every conjunct, at a painter with
opacity 1, clip `[0,1]²`: finite `set_opacity 2` clamps to 1, `nan` leaves the
opacity unchanged, `multiply_opacity 0.5` twice yields 0.25. -/
theorem painter_opacity_spec_witness :
    ((Painter.new 0 ⟨⟨0, 0⟩, ⟨1, 1⟩⟩).setOpacity (.finite 2)).opacity = fclamp 2 0 1
    ∧ ((Painter.new 0 ⟨⟨0, 0⟩, ⟨1, 1⟩⟩).setOpacity .nan).opacity
        = (Painter.new 0 ⟨⟨0, 0⟩, ⟨1, 1⟩⟩).opacity
    ∧ ((Painter.new 0 ⟨⟨0, 0⟩, ⟨1, 1⟩⟩).multiplyOpacity (.finite (1/2))).opacity
        = (Painter.new 0 ⟨⟨0, 0⟩, ⟨1, 1⟩⟩).opacity * fclamp (1/2) 0 1
    ∧ ((Painter.new 0 ⟨⟨0, 0⟩, ⟨1, 1⟩⟩).multiplyOpacity .posInf).opacity
        = (Painter.new 0 ⟨⟨0, 0⟩, ⟨1, 1⟩⟩).opacity
    ∧ (((Painter.new 0 ⟨⟨0, 0⟩, ⟨1, 1⟩⟩).multiplyOpacity (.finite (1/2))).multiplyOpacity
          (.finite (1/2))).opacity = 1/4 :=
  ⟨painter_opacity_spec.1 _ 2, painter_opacity_spec.2.1 _ .nan rfl,
    painter_opacity_spec.2.2.1 _ (1/2), painter_opacity_spec.2.2.2.1 _ .posInf rfl,
    painter_opacity_spec.2.2.2.2 0 ⟨⟨0, 0⟩, ⟨1, 1⟩⟩⟩

/-- C1: absent a resize drag, the realized width of a side panel equals
`min(clamp(w, width_range), available_width)` where `w` is the stored width
from the previous pass if panel state exists, else the configured default
width; in particular with `width_range = [96, 400]`, `default_width = 200` and
no stored state, available width 50 realizes width 50 (both as the negotiated
width and as the width of the realized panel rect) and available width 1000
realizes width 200. -/
theorem sidePanel_realized_width (p : SidePanel) (state : Option PanelState)
    (avail : Rect) (resize : Option SidePanel.ResizeInput)
    (hdrag : ∀ r, resize = some r → r.dragged = false) :
    ((p.negotiate state avail resize).1
        = Min.min
          (clampToRange
            (match state with
              | some s => s.rect.width
              | none => p.defaultWidth)
            p.widthRange)
          avail.width)
    ∧ ((SidePanel.mk .left (.base testPanelSalt) true true 200 ⟨96, 400⟩).negotiate none
        ⟨⟨0, 0⟩, ⟨50, 100⟩⟩ none).1 = 50
    ∧ ((SidePanel.mk .left (.base testPanelSalt) true true 200 ⟨96, 400⟩).negotiate none
        ⟨⟨0, 0⟩, ⟨50, 100⟩⟩ none).2.width = 50
    ∧ ((SidePanel.mk .left (.base testPanelSalt) true true 200 ⟨96, 400⟩).negotiate none
        ⟨⟨0, 0⟩, ⟨1000, 100⟩⟩ none).1 = 200
    ∧ ((SidePanel.mk .left (.base testPanelSalt) true true 200 ⟨96, 400⟩).negotiate none
        ⟨⟨0, 0⟩, ⟨1000, 100⟩⟩ none).2.width = 200 := by
  refine ⟨?_, ?_, ?_, ?_, ?_⟩
  case _ =>
    rcases resize with _ | r
    · cases p.resizable <;> simp [SidePanel.negotiate, atMost]
    · have hr := hdrag r rfl
      cases p.resizable <;> simp [SidePanel.negotiate, atMost, hr]
  all_goals
    norm_num [SidePanel.negotiate, atMost, clampToRange, fclamp, Rangef.asPositive,
      Rect.width, Rect.roundUi, Pos2.roundUi, roundUi, Side.setRectWidth]

/-- Witness for C1: for the concretely configured left panel (range
`[96, 400]`, default 200, no stored state, no resize input), the negotiated
width on an available rect of width 50 equals
`min(clamp(200, [96, 400]), 50) = 50`. -/
theorem sidePanel_realized_width_witness :
    ((SidePanel.mk .left (.base testPanelSalt) true true 200 ⟨96, 400⟩).negotiate none
        ⟨⟨0, 0⟩, ⟨50, 100⟩⟩ none).1
      = Min.min (clampToRange 200 ⟨96, 400⟩) (Rect.width ⟨⟨0, 0⟩, ⟨50, 100⟩⟩) :=
  (sidePanel_realized_width (SidePanel.mk .left (.base testPanelSalt) true true 200 ⟨96, 400⟩)
    none ⟨⟨0, 0⟩, ⟨50, 100⟩⟩ none (fun r hr => by cases hr)).1

/-- C9: panel extent clamping is total and never panics, even for a
configuration whose minimum extent exceeds its maximum: `clamp_to_range`
always returns a value inside the order-normalized (`as_positive`) version of
the range (whose endpoints are always ordered, so the inner `f32::clamp`
cannot panic), the negotiated panel width never exceeds the normalized
maximum, and `show` always produces a (possibly degenerate) panel rect — the
available rect with the negotiated width set on the panel's side, rounded. -/
theorem clampToRange_total (x : ℚ) (r : Rangef) (p : SidePanel) (state : Option PanelState)
    (avail : Rect) (resize : Option SidePanel.ResizeInput) :
    r.asPositive.min ≤ r.asPositive.max
    ∧ r.asPositive.min ≤ clampToRange x r
    ∧ clampToRange x r ≤ r.asPositive.max
    ∧ (p.negotiate state avail resize).1 ≤ p.widthRange.asPositive.max
    ∧ (p.negotiate state avail resize).2
        = (p.side.setRectWidth avail (p.negotiate state avail resize).1).roundUi := by
  refine ⟨r.asPositive_min_le_max, le_clampToRange x r, clampToRange_le x r, ?_, ?_⟩
  · unfold SidePanel.negotiate
    rcases resize with _ | rz
    · cases p.resizable <;>
        simpa [atMost] using le_trans (min_le_left _ _) (clampToRange_le _ _)
    · cases p.resizable
      · simpa [atMost] using le_trans (min_le_left _ _) (clampToRange_le _ _)
      · cases hd : rz.dragged
        · simpa [atMost, hd] using le_trans (min_le_left _ _) (clampToRange_le _ _)
        · rcases hp : rz.pointerX with _ | px <;>
            simpa [atMost, hd, hp] using le_trans (min_le_left _ _) (clampToRange_le _ _)
  · unfold SidePanel.negotiate
    rcases resize with _ | rz
    · cases p.resizable <;> simp
    · cases p.resizable
      · simp
      · cases hd : rz.dragged
        · simp [hd]
        · rcases hp : rz.pointerX with _ | px <;>
            simp [hd, hp, Side.setRectWidth_setRectWidth]

/-- C4: for every shape and every fade/opacity state of a painter, the
shape-transform pipeline relates old and new colors slot by slot (in
particular the color lists have the same length), every color equal to the
placeholder sentinel stays exactly the placeholder value, and a color that was
modified cannot have been the placeholder. -/
theorem transformShape_placeholder (ops : EcolorOps) (p : Painter) (shape : Shape) :
    List.Forall₂
      (fun c1 c2 => (c1 = Color32.PLACEHOLDER → c2 = Color32.PLACEHOLDER)
        ∧ (c2 ≠ c1 → c1 ≠ Color32.PLACEHOLDER))
      shape.colors (p.transformShape ops shape).colors := by
  obtain ⟨g, hg, hcolors⟩ := Painter.transformShape_colors ops p shape
  rw [hcolors]
  exact List.forall₂_map_placeholder g hg shape.colors

/-- Witness for C4 at a concrete input: a rectangle shape whose fill is the
placeholder, painted with a fade-to color set and opacity one half. -/
theorem transformShape_placeholder_witness :
    List.Forall₂
      (fun c1 c2 => (c1 = Color32.PLACEHOLDER → c2 = Color32.PLACEHOLDER)
        ∧ (c2 ≠ c1 → c1 ≠ Color32.PLACEHOLDER))
      (Shape.rect ⟨⟨0, 0⟩, ⟨1, 1⟩⟩ Color32.PLACEHOLDER ⟨9, 9, 9, 9⟩ 1).colors
      ((Painter.mk 0 ⟨⟨0, 0⟩, ⟨1, 1⟩⟩ (some ⟨1, 2, 3, 4⟩) (1/2)).transformShape .sample
        (Shape.rect ⟨⟨0, 0⟩, ⟨1, 1⟩⟩ Color32.PLACEHOLDER ⟨9, 9, 9, 9⟩ 1)).colors :=
  transformShape_placeholder .sample (Painter.mk 0 ⟨⟨0, 0⟩, ⟨1, 1⟩⟩ (some ⟨1, 2, 3, 4⟩) (1/2))
    (Shape.rect ⟨⟨0, 0⟩, ⟨1, 1⟩⟩ Color32.PLACEHOLDER ⟨9, 9, 9, 9⟩ 1)

/-- C5: `Painter::add` always appends exactly one entry and returns its (valid)
index; when the painter is invisible (`fade_to_color` equals fully-transparent
or `opacity_factor == 0.0`) the stored shape is the no-op shape and `extend`
appends nothing at all; in every other state `add` appends the transformed
input shape. -/
theorem painter_add_extend (ops : EcolorOps) (p : Painter) (l : PaintList) (s : Shape)
    (shapes : List Shape) :
    (l.length < (Painter.add ops p l s).1.length ∧ (Painter.add ops p l s).2 = l.length
      ∧ (Painter.add ops p l s).1.length = l.length + 1)
    ∧ (p.fadeToColor = some Color32.TRANSPARENT ∨ p.opacityFactor = 0 →
        Painter.add ops p l s = (List.append l [⟨p.clipRect, .noop⟩], l.length)
        ∧ Painter.extend ops p l shapes = l)
    ∧ (¬(p.fadeToColor = some Color32.TRANSPARENT ∨ p.opacityFactor = 0) →
        Painter.add ops p l s
          = (List.append l [⟨p.clipRect, p.transformShape ops s⟩], l.length)) := by
  refine ⟨?_, fun h => ⟨?_, ?_⟩, fun h => ?_⟩
  · unfold Painter.add
    split_ifs <;> simp [PaintList.add]
  · simp [Painter.add, PaintList.add, h]
  · simp [Painter.extend, h]
  · simp [Painter.add, PaintList.add, h]

/-- Witness for C5 at a concrete input: an invisible painter
(`fade_to_color == TRANSPARENT`) appends a no-op entry at index 0 and extend
leaves the list empty; a fresh (visible) painter appends the shape itself. -/
theorem painter_add_extend_witness :
    (Painter.add .sample ⟨0, ⟨⟨0, 0⟩, ⟨1, 1⟩⟩, some Color32.TRANSPARENT, 1⟩ [] .noop
        = (List.append [] [⟨⟨⟨0, 0⟩, ⟨1, 1⟩⟩, .noop⟩], 0)
      ∧ Painter.extend .sample ⟨0, ⟨⟨0, 0⟩, ⟨1, 1⟩⟩, some Color32.TRANSPARENT, 1⟩ [] [.noop]
        = [])
    ∧ Painter.add .sample (Painter.new 0 ⟨⟨0, 0⟩, ⟨1, 1⟩⟩) [] .noop
        = (List.append []
            [⟨⟨⟨0, 0⟩, ⟨1, 1⟩⟩,
              (Painter.new 0 ⟨⟨0, 0⟩, ⟨1, 1⟩⟩).transformShape .sample .noop⟩], 0) :=
  ⟨(painter_add_extend .sample ⟨0, ⟨⟨0, 0⟩, ⟨1, 1⟩⟩, some Color32.TRANSPARENT, 1⟩ [] .noop
      [.noop]).2.1 (Or.inl rfl),
    (painter_add_extend .sample (Painter.new 0 ⟨⟨0, 0⟩, ⟨1, 1⟩⟩) [] .noop []).2.2
      (by simp [Painter.new])⟩

/-- Counterexample to C10 as stated: the "exactly when" direction fails — a
painter with no fade color and opacity 1 (so not fully-transparent) calling
`set` with the value already stored at the index leaves the shape list
completely unchanged. -/
theorem painter_set_unchanged_counterexample :
    Painter.set .sample ⟨0, ⟨⟨0, 0⟩, ⟨1, 1⟩⟩, none, 1⟩ [⟨⟨⟨0, 0⟩, ⟨1, 1⟩⟩, .noop⟩] 0 .noop
        = [⟨⟨⟨0, 0⟩, ⟨1, 1⟩⟩, .noop⟩]
    ∧ (Painter.mk 0 ⟨⟨0, 0⟩, ⟨1, 1⟩⟩ none 1).fadeToColor ≠ some Color32.TRANSPARENT := by
  refine ⟨?_, by simp⟩
  norm_num [Painter.set, Painter.transformShape, PaintList.set, List.set]

/-- C10 (amended): `Painter::set` performs no write when `fade_to_color`
equals fully-transparent; in every other painter state — including
`opacity_factor == 0.0`, where `add` would store a no-op shape — it writes the
transformed input shape at the index (with every non-placeholder color
gamma-multiplied by the zero opacity factor when `opacity_factor == 0.0` and
no fade is set); the list is unchanged only in the sense that no entry other
than the indexed one is touched, and it may coincide with its previous value
when the written entry equals the stored one. -/
theorem painter_set_spec (ops : EcolorOps) (p : Painter) (l : PaintList) (idx : ℕ)
    (s : Shape) :
    (p.fadeToColor = some Color32.TRANSPARENT → Painter.set ops p l idx s = l)
    ∧ (p.fadeToColor ≠ some Color32.TRANSPARENT →
        Painter.set ops p l idx s = l.set idx p.clipRect (p.transformShape ops s))
    ∧ (p.fadeToColor = none → p.opacityFactor = 0 →
        Painter.set ops p l idx s = l.set idx p.clipRect (multiplyOpacityShape ops 0 s)) := by
  refine ⟨fun h => by simp [Painter.set, h], fun h => by simp [Painter.set, h], ?_⟩
  intro hf hop
  simp [Painter.set, hf, Painter.transformShape, hop]

/-- Witness for C10 at concrete inputs: a fully-transparent-fade painter
leaves the one-entry list unchanged; a painter with no fade and opacity 0
writes the zero-opacity transform of the input shape at index 0. -/
theorem painter_set_spec_witness :
    Painter.set .sample ⟨0, ⟨⟨0, 0⟩, ⟨1, 1⟩⟩, some Color32.TRANSPARENT, 1⟩
        [⟨⟨⟨0, 0⟩, ⟨1, 1⟩⟩, .noop⟩] 0 (.rect ⟨⟨0, 0⟩, ⟨1, 1⟩⟩ ⟨9, 9, 9, 9⟩ ⟨8, 8, 8, 8⟩ 1)
        = [⟨⟨⟨0, 0⟩, ⟨1, 1⟩⟩, .noop⟩]
    ∧ Painter.set .sample ⟨0, ⟨⟨0, 0⟩, ⟨1, 1⟩⟩, none, 0⟩
        [⟨⟨⟨0, 0⟩, ⟨1, 1⟩⟩, .noop⟩] 0 (.rect ⟨⟨0, 0⟩, ⟨1, 1⟩⟩ ⟨9, 9, 9, 9⟩ ⟨8, 8, 8, 8⟩ 1)
        = PaintList.set [⟨⟨⟨0, 0⟩, ⟨1, 1⟩⟩, .noop⟩] 0 ⟨⟨0, 0⟩, ⟨1, 1⟩⟩
            (multiplyOpacityShape .sample 0
              (.rect ⟨⟨0, 0⟩, ⟨1, 1⟩⟩ ⟨9, 9, 9, 9⟩ ⟨8, 8, 8, 8⟩ 1)) :=
  ⟨(painter_set_spec .sample ⟨0, ⟨⟨0, 0⟩, ⟨1, 1⟩⟩, some Color32.TRANSPARENT, 1⟩
      [⟨⟨⟨0, 0⟩, ⟨1, 1⟩⟩, .noop⟩] 0 (.rect ⟨⟨0, 0⟩, ⟨1, 1⟩⟩ ⟨9, 9, 9, 9⟩ ⟨8, 8, 8, 8⟩ 1)).1 rfl,
    (painter_set_spec .sample ⟨0, ⟨⟨0, 0⟩, ⟨1, 1⟩⟩, none, 0⟩
      [⟨⟨⟨0, 0⟩, ⟨1, 1⟩⟩, .noop⟩] 0
      (.rect ⟨⟨0, 0⟩, ⟨1, 1⟩⟩ ⟨9, 9, 9, 9⟩ ⟨8, 8, 8, 8⟩ 1)).2.2 rfl rfl⟩

/-- C7: in `StripLayout::add`, the allocation rect — the rect that advances
the cursor (via `set_pos`) and is allocated to the parent — is the used rect
alone during a sizing pass, the cell's max rect alone when `flags.clip` is
set, and otherwise the union of the max rect and the used rect; for a
horizontal strip the cursor then sits at the allocation rect's trailing edge
plus item spacing. -/
theorem strip_allocation (ui : StripUi) (flags : StripLayoutFlags) (s : StripState)
    (w h : CellSize) (used : Rect) :
    ((s.addCell ui flags w h used).2.2
        = if ui.isSizingPass then used
          else if flags.clip then s.cellRect w h
          else (s.cellRect w h).union used)
    ∧ (s.addCell ui flags w h used).1 = s.setPos ui (s.addCell ui flags w h used).2.2
    ∧ (s.direction = .horizontal →
        (s.addCell ui flags w h used).1.cursor.x
          = (s.addCell ui flags w h used).2.2.right + ui.itemSpacing.x) := by
  refine ⟨rfl, rfl, fun hdir => ?_⟩
  rcases s with ⟨dir, rect, cur, mx⟩
  cases hdir
  rfl

/-- Witness for C7 at a concrete input: a fresh horizontal strip on
`[0,100]²` with spacing `(5,7)`, a non-clipped non-sizing cell of size
`20 × 10` whose content used `[0,15] × [0,8]`. -/
theorem strip_allocation_witness :
    (((StripState.new .horizontal ⟨⟨0, 0⟩, ⟨100, 100⟩⟩).addCell ⟨⟨5, 7⟩, false⟩ {}
        (.absolute 20) (.absolute 10) ⟨⟨0, 0⟩, ⟨15, 8⟩⟩).2.2
      = if (false : Bool) then (⟨⟨0, 0⟩, ⟨15, 8⟩⟩ : Rect)
        else if (false : Bool) then
          (StripState.new .horizontal ⟨⟨0, 0⟩, ⟨100, 100⟩⟩).cellRect (.absolute 20) (.absolute 10)
        else ((StripState.new .horizontal ⟨⟨0, 0⟩, ⟨100, 100⟩⟩).cellRect (.absolute 20)
          (.absolute 10)).union ⟨⟨0, 0⟩, ⟨15, 8⟩⟩)
    ∧ ((StripState.new .horizontal ⟨⟨0, 0⟩, ⟨100, 100⟩⟩).addCell ⟨⟨5, 7⟩, false⟩ {}
        (.absolute 20) (.absolute 10) ⟨⟨0, 0⟩, ⟨15, 8⟩⟩).1.cursor.x
      = ((StripState.new .horizontal ⟨⟨0, 0⟩, ⟨100, 100⟩⟩).addCell ⟨⟨5, 7⟩, false⟩ {}
          (.absolute 20) (.absolute 10) ⟨⟨0, 0⟩, ⟨15, 8⟩⟩).2.2.right + 5 :=
  ⟨(strip_allocation ⟨⟨5, 7⟩, false⟩ {} (StripState.new .horizontal ⟨⟨0, 0⟩, ⟨100, 100⟩⟩)
      (.absolute 20) (.absolute 10) ⟨⟨0, 0⟩, ⟨15, 8⟩⟩).1,
    (strip_allocation ⟨⟨5, 7⟩, false⟩ {} (StripState.new .horizontal ⟨⟨0, 0⟩, ⟨100, 100⟩⟩)
      (.absolute 20) (.absolute 10) ⟨⟨0, 0⟩, ⟨15, 8⟩⟩).2.2 rfl⟩

/-- C8: `show_animated` at progress exactly 0 shows nothing and returns
`None`; at progress exactly 1 it returns `Some` of the result of showing the
real panel, identical to calling `show` directly with the same arguments; at
progress strictly between 0 and 1 it returns `None` and shows only a fake
panel that is non-resizable, has exact width `progress * expanded_width`, and
lives under the derived id `id.with("animating_panel")`, distinct from the
real panel's id. -/
theorem sidePanel_show_animated (p : SidePanel) (store : Id → Option PanelState)
    (avail : Rect) (resize : Option SidePanel.ResizeInput) (q : ℚ) :
    p.showAnimated store avail resize 0 = (none, .nothing)
    ∧ p.showAnimated store avail resize 1
        = (some (p.showPanel store avail resize), .real p)
    ∧ (0 < q → q < 1 →
        (p.showAnimated store avail resize q).1 = none
        ∧ ∃ fake : SidePanel,
            (p.showAnimated store avail resize q).2 = .fake fake
            ∧ fake.resizable = false
            ∧ fake.id = p.id.withSalt animatingPanelSalt
            ∧ fake.id ≠ p.id
            ∧ fake.widthRange = Rangef.point fake.defaultWidth
            ∧ fake.defaultWidth = q * (match store p.id with
                | some st => st.rect.width
                | none => p.defaultWidth)) := by
  refine ⟨by simp [SidePanel.showAnimated], by norm_num [SidePanel.showAnimated], ?_⟩
  intro hq0 hq1
  refine ⟨by simp [SidePanel.showAnimated, hq0.ne, hq1], ?_⟩
  refine ⟨(({ p with id := p.id.withSalt animatingPanelSalt }).setResizable false).exactWidth
      (q * (match store p.id with | some st => st.rect.width | none => p.defaultWidth)),
    by simp [SidePanel.showAnimated, hq0.ne, hq1], rfl, rfl, ?_, rfl, rfl⟩
  exact Id.derive_ne p.id animatingPanelSalt

/-- Witness for C8 at a concrete input: progress one half on a left panel
with range `[96, 400]`, default width 200, no stored state. -/
theorem sidePanel_show_animated_witness :
    (0 : ℚ) < 1/2 ∧ (1/2 : ℚ) < 1
    ∧ (((SidePanel.mk .left (.base testPanelSalt) true true 200 ⟨96, 400⟩).showAnimated
          (fun _ => none) ⟨⟨0, 0⟩, ⟨1000, 100⟩⟩ none (1/2)).1 = none
        ∧ ∃ fake : SidePanel,
            ((SidePanel.mk .left (.base testPanelSalt) true true 200 ⟨96, 400⟩).showAnimated
              (fun _ => none) ⟨⟨0, 0⟩, ⟨1000, 100⟩⟩ none (1/2)).2 = .fake fake
            ∧ fake.resizable = false
            ∧ fake.id = (SidePanel.mk .left (.base testPanelSalt) true true 200 ⟨96, 400⟩).id.withSalt
                animatingPanelSalt
            ∧ fake.id ≠ (SidePanel.mk .left (.base testPanelSalt) true true 200 ⟨96, 400⟩).id
            ∧ fake.widthRange = Rangef.point fake.defaultWidth
            ∧ fake.defaultWidth = (1/2 : ℚ) * (match (fun _ => none :
                  Id → Option PanelState) (SidePanel.mk .left (.base testPanelSalt) true true 200
                    ⟨96, 400⟩).id with
                | some st => st.rect.width
                | none => (SidePanel.mk .left (.base testPanelSalt) true true 200
                    ⟨96, 400⟩).defaultWidth)) :=
  ⟨by norm_num, by norm_num,
    (sidePanel_show_animated (SidePanel.mk .left (.base testPanelSalt) true true 200 ⟨96, 400⟩)
      (fun _ => none) ⟨⟨0, 0⟩, ⟨1000, 100⟩⟩ none (1/2)).2.2 (by norm_num) (by norm_num)⟩

/-- C6: for a horizontal strip, after adding three cells of heights 10, 30 and
15 on one line and calling `end_line`, the next line's cursor `y` equals the
previous line's origin `y` plus 30 — the maximum height of the line — plus
the item spacing (so exactly `+30` under zero spacing, not `+15` or `+10`),
and the primary-axis cursor `x` is reset to the strip rect's left edge; in
general `end_line` on a horizontal strip sets the cursor to the strip rect's
left edge and the high-water mark `max.y` plus item spacing. -/
theorem strip_line_nonoverlap (ui : StripUi) (rect : Rect) (w1 w2 w3 : ℚ)
    (hsz : ui.isSizingPass = false) :
    (stripThreeCells ui rect w1 w2 w3).cursor.y
        = rect.top + 30 + ui.itemSpacing.y
    ∧ (ui.itemSpacing.y = 0 →
        (stripThreeCells ui rect w1 w2 w3).cursor.y = rect.top + 30)
    ∧ (stripThreeCells ui rect w1 w2 w3).cursor.x = rect.left
    ∧ ∀ t : StripState, t.direction = .horizontal →
        (t.endLine ui).cursor = ⟨t.rect.left, t.max.y + ui.itemSpacing.y⟩ := by
  have hline : ∀ t : StripState, t.direction = .horizontal →
      (t.endLine ui).cursor = ⟨t.rect.left, t.max.y + ui.itemSpacing.y⟩ := by
    rintro ⟨dir, r, c, m⟩ ht
    cases ht
    rfl
  unfold stripThreeCells
  set s0 := StripState.new .horizontal rect with hs0
  set s1 := (s0.addCell ui {} (.absolute w1) (.absolute 10)
      (s0.cellRect (.absolute w1) (.absolute 10))).1 with hs1
  set s2 := (s1.addCell ui {} (.absolute w2) (.absolute 30)
      (s1.cellRect (.absolute w2) (.absolute 30))).1 with hs2
  set s3 := (s2.addCell ui {} (.absolute w3) (.absolute 15)
      (s2.cellRect (.absolute w3) (.absolute 15))).1 with hs3
  have H1 := StripState.addCell_full_horizontal ui hsz s0 rfl w1 10
  rw [← hs1] at H1
  have H2 := StripState.addCell_full_horizontal ui hsz s1 H1.1 w2 30
  rw [← hs2] at H2
  have H3 := StripState.addCell_full_horizontal ui hsz s2 H2.1 w3 15
  rw [← hs3] at H3
  have e0c : s0.cursor.y = rect.min.y := rfl
  have e0m : s0.max.y = rect.min.y := rfl
  have e1c : s1.cursor.y = rect.min.y := by rw [H1.2.2.1, e0c]
  have e1m : s1.max.y = rect.min.y + 10 := by
    rw [H1.2.2.2, e0m, e0c]
    exact max_eq_right (by linarith)
  have e2c : s2.cursor.y = rect.min.y := by rw [H2.2.2.1, e1c]
  have e2m : s2.max.y = rect.min.y + 30 := by
    rw [H2.2.2.2, e1m, e1c]
    exact max_eq_right (by linarith)
  have e3m : s3.max.y = rect.min.y + 30 := by
    rw [H3.2.2.2, e2m, e2c]
    exact max_eq_left (by linarith)
  have e3r : s3.rect = rect := by
    rw [H3.2.1, H2.2.1, H1.2.1]
    rfl
  have hcur := hline s3 H3.1
  have hy : (s3.endLine ui).cursor.y = s3.max.y + ui.itemSpacing.y := by rw [hcur]
  have hx : (s3.endLine ui).cursor.x = s3.rect.left := by rw [hcur]
  have main : (s3.endLine ui).cursor.y = rect.top + 30 + ui.itemSpacing.y := by
    rw [hy, e3m]
    rfl
  exact ⟨main, fun h0 => by rw [main, h0, add_zero], by rw [hx, e3r], hline⟩

/-- Witness for C6 at a concrete input: strip rect `[0,100]²`, cell widths
all 20, item spacing `(5,7)`, not a sizing pass: the next line's cursor is
`(0, 0 + 30 + 7)`. -/
theorem strip_line_nonoverlap_witness :
    (stripThreeCells ⟨⟨5, 7⟩, false⟩ ⟨⟨0, 0⟩, ⟨100, 100⟩⟩ 20 20 20).cursor.y
        = (Rect.top ⟨⟨0, 0⟩, ⟨100, 100⟩⟩) + 30 + 7
    ∧ (stripThreeCells ⟨⟨5, 7⟩, false⟩ ⟨⟨0, 0⟩, ⟨100, 100⟩⟩ 20 20 20).cursor.x
        = Rect.left ⟨⟨0, 0⟩, ⟨100, 100⟩⟩ :=
  ⟨(strip_line_nonoverlap ⟨⟨5, 7⟩, false⟩ ⟨⟨0, 0⟩, ⟨100, 100⟩⟩ 20 20 20 rfl).1,
    (strip_line_nonoverlap ⟨⟨5, 7⟩, false⟩ ⟨⟨0, 0⟩, ⟨100, 100⟩⟩ 20 20 20 rfl).2.2.1⟩

end Egui
